import Mathlib

/-
Verification of the RTM indicator pipeline of this repository.

Sources modelled:
  - src/backend/app.py : calculate_ema, calculate_ema_gradient (normalized RTM),
    detect_direction_change, calculate_rtm_values_for_symbol, get_currencies_rtm.
  - src/main.py : calculate_ema_gradient (legacy RTM).

Modelling conventions: Python float arithmetic is modelled by exact arithmetic
(rationals for the legacy pipeline, reals for the normalized pipeline); the IEEE
special values produced by division by zero are modelled explicitly by an extended
value type where they matter.  Machine integers are modelled by Int (no overflow is
reachable at the magnitudes involved).  Exceptions that the source catches and turns
into a default value are modelled by returning that default value.
-/

/-- Shallow embedding of calculate_ema (src/backend/app.py lines 146 to 154; the same
function appears verbatim in src/main.py lines 133 to 141).  The recurrence of
pandas ewm with span=period and adjust=False: y0 = x0 and yi = a*xi + (1-a)*y(i-1)
with a = 2/(period+1).  pandas raises ValueError for span below 1; the except branch
of the source turns any such failure into an empty series, and empty input returns
an empty series directly.  The helper emaRec carries the previous output value. -/
def emaRec {K : Type} [Field K] (a prev : K) : List K → List K
  | [] => []
  | x :: xs => (a * x + (1 - a) * prev) :: emaRec a (a * x + (1 - a) * prev) xs

/-- Entry point of the EMA smoother; see emaRec for the recurrence. -/
def calculate_ema {K : Type} [Field K] (data : List K) (period : ℤ) : List K :=
  match data with
  | [] => []
  | c :: cs => if period < 1 then [] else c :: emaRec (2 / ((period : K) + 1)) c cs

/-- Shallow embedding of the nested helper get_sign of detect_direction_change
(src/backend/app.py lines 469 to 475). -/
def get_sign (value : ℤ) : ℤ :=
  if 0 < value then 1 else if value < 0 then -1 else 0

/-- Count of strictly positive entries of a list, as the source computes it with
sum(1 for s in l if s > 0). -/
def posCount (l : List ℤ) : ℕ := l.countP (fun v => decide (0 < v))

/-- Count of strictly negative entries of a list. -/
def negCount (l : List ℤ) : ℕ := l.countP (fun v => decide (v < 0))

/-- Shallow embedding of detect_direction_change (src/backend/app.py lines 461 to 521).
The source computes signs = map get_sign, slices signs with [:4], [4:], [:3], [3:]
(note: the second slice of each pair extends to the end of the list, not to index 6),
counts positive and negative entries of each slice, and returns True on the first of
four threshold checks that fires.  The local count variables of the source are
inlined here. -/
def detect_direction_change (rtm_values : List ℤ) : Bool :=
  if rtm_values.length < 6 then false
  else
    if 3 ≤ posCount ((rtm_values.map get_sign).take 4) ∧
       1 ≤ negCount ((rtm_values.map get_sign).drop 4) then true
    else if 3 ≤ negCount ((rtm_values.map get_sign).take 4) ∧
            1 ≤ posCount ((rtm_values.map get_sign).drop 4) then true
    else if 2 ≤ posCount ((rtm_values.map get_sign).take 3) ∧
            2 ≤ negCount ((rtm_values.map get_sign).drop 3) then true
    else if 2 ≤ negCount ((rtm_values.map get_sign).take 3) ∧
            2 ≤ posCount ((rtm_values.map get_sign).drop 3) then true
    else false

/-- The split 4/2 rule exactly as the source implements it: first group is the first
four values, second group is every value from index 4 to the end. -/
def fullsplit42 (vs : List ℤ) : Bool :=
  (decide (3 ≤ posCount (vs.take 4)) && decide (1 ≤ negCount (vs.drop 4))) ||
  (decide (3 ≤ negCount (vs.take 4)) && decide (1 ≤ posCount (vs.drop 4)))

/-- The split 3/3 rule exactly as the source implements it: first group is the first
three values, second group is every value from index 3 to the end. -/
def fullsplit33 (vs : List ℤ) : Bool :=
  (decide (2 ≤ posCount (vs.take 3)) && decide (2 ≤ negCount (vs.drop 3))) ||
  (decide (2 ≤ negCount (vs.take 3)) && decide (2 ≤ posCount (vs.drop 3)))

/-- The split 4/2 rule as the specification states it in section 4.4: the groups are
values[0:4] and values[4:6]. -/
def split42_spec (vs : List ℤ) : Bool :=
  (decide (3 ≤ posCount (vs.take 4)) && decide (1 ≤ negCount ((vs.drop 4).take 2))) ||
  (decide (3 ≤ negCount (vs.take 4)) && decide (1 ≤ posCount ((vs.drop 4).take 2)))

/-- The split 3/3 rule as the specification states it in section 4.4: the groups are
values[0:3] and values[3:6]. -/
def split33_spec (vs : List ℤ) : Bool :=
  (decide (2 ≤ posCount (vs.take 3)) && decide (2 ≤ negCount ((vs.drop 3).take 3))) ||
  (decide (2 ≤ negCount (vs.take 3)) && decide (2 ≤ posCount ((vs.drop 3).take 3)))

/-- Truncation of a rational toward zero, the semantics of the numpy astype(int)
cast applied by both RTM variants to finite values. -/
def astype_int (q : ℚ) : ℤ := Int.tdiv q.num q.den

/-- Shallow embedding of the RTM column assignment of calculate_ema_gradient in
src/main.py line 151: RTM = (-10000 * (ema_short - close_price) / ema_short)
cast with astype(int).  When some EMA entry is zero the division produces a
non-finite value and the astype cast raises; the except branch of the source then
leaves the RTM column unset, which this model renders as none.  The gradient and
angle columns that the same source function computes are auxiliary outputs consumed
by nothing in scope (specification section 4.3) and are not modelled. -/
def legacy_rtm_column (closes ema : List ℚ) : Option (List ℤ) :=
  if (0 : ℚ) ∈ ema then none
  else some (List.zipWith (fun e c => astype_int (-10000 * (e - c) / e)) ema closes)

/-- The legacy RTM column as the specification words it in section 4.2: floor_to_int
of the scaled relative deviation, with floor rounding toward negative infinity.
Modelled from the spec for comparison with the implementation. -/
def legacy_rtm_column_floor (closes ema : List ℚ) : Option (List ℤ) :=
  if (0 : ℚ) ∈ ema then none
  else some (List.zipWith (fun e c => ⌊-10000 * (e - c) / e⌋) ema closes)

/-- Extended value type for the normalized RTM pipeline: a Python float is either a
finite real or one of the IEEE special values inf, minus inf and nan, which arise in
this pipeline only from division by zero.  Rounding of finite values is not
modelled. -/
inductive EFloat where
  | fin : ℝ → EFloat
  | pinf : EFloat
  | ninf : EFloat
  | nan : EFloat

/-- True exactly on the nan value, the semantics of numpy isnan. -/
def EFloat.isNan : EFloat → Bool
  | EFloat.nan => true
  | _ => false

/-- True exactly on finite values, the semantics of numpy isfinite. -/
def EFloat.isFinite : EFloat → Bool
  | EFloat.fin _ => true
  | _ => false

/-- Real value of a finite entry. -/
def EFloat.toReal : EFloat → Option ℝ
  | EFloat.fin x => some x
  | _ => none

/-- numpy where(isfinite(x), x, 0.0) applied to one value: finite values pass
through, every non-finite value becomes zero (src/backend/app.py lines 203 and
211). -/
def whereFin : EFloat → ℝ
  | EFloat.fin x => x
  | _ => 0

noncomputable section
open scoped Classical

/-- IEEE float division on extended values: nan propagates, a nonzero finite value
divided by zero gives a signed infinity, zero by zero gives nan, finite by infinite
gives zero, infinite by finite keeps the infinity with the sign of the divisor, and
infinite by infinite gives nan. -/
noncomputable def EFloat.div : EFloat → EFloat → EFloat
  | EFloat.nan, _ => EFloat.nan
  | _, EFloat.nan => EFloat.nan
  | EFloat.fin a, EFloat.fin b =>
      if b = 0 then
        (if 0 < a then EFloat.pinf else if a < 0 then EFloat.ninf else EFloat.nan)
      else EFloat.fin (a / b)
  | EFloat.fin _, EFloat.pinf => EFloat.fin 0
  | EFloat.fin _, EFloat.ninf => EFloat.fin 0
  | EFloat.pinf, EFloat.fin b => if 0 ≤ b then EFloat.pinf else EFloat.ninf
  | EFloat.ninf, EFloat.fin b => if 0 ≤ b then EFloat.ninf else EFloat.pinf
  | EFloat.pinf, EFloat.pinf => EFloat.nan
  | EFloat.pinf, EFloat.ninf => EFloat.nan
  | EFloat.ninf, EFloat.pinf => EFloat.nan
  | EFloat.ninf, EFloat.ninf => EFloat.nan

/-- IEEE float multiplication on extended values: nan propagates, zero times an
infinity gives nan, and otherwise signs multiply. -/
noncomputable def EFloat.mul : EFloat → EFloat → EFloat
  | EFloat.nan, _ => EFloat.nan
  | _, EFloat.nan => EFloat.nan
  | EFloat.fin a, EFloat.fin b => EFloat.fin (a * b)
  | EFloat.fin a, EFloat.pinf =>
      if 0 < a then EFloat.pinf else if a < 0 then EFloat.ninf else EFloat.nan
  | EFloat.pinf, EFloat.fin a =>
      if 0 < a then EFloat.pinf else if a < 0 then EFloat.ninf else EFloat.nan
  | EFloat.fin a, EFloat.ninf =>
      if 0 < a then EFloat.ninf else if a < 0 then EFloat.pinf else EFloat.nan
  | EFloat.ninf, EFloat.fin a =>
      if 0 < a then EFloat.ninf else if a < 0 then EFloat.pinf else EFloat.nan
  | EFloat.pinf, EFloat.pinf => EFloat.pinf
  | EFloat.ninf, EFloat.ninf => EFloat.pinf
  | EFloat.pinf, EFloat.ninf => EFloat.ninf
  | EFloat.ninf, EFloat.pinf => EFloat.ninf

/-- numpy clip(x, -100, 100) on one value: finite values are clamped, the two
infinities land on the respective bound, nan passes through. -/
noncomputable def clipE : EFloat → EFloat
  | EFloat.fin x => EFloat.fin (min 100 (max (-100) x))
  | EFloat.pinf => EFloat.fin 100
  | EFloat.ninf => EFloat.fin (-100)
  | EFloat.nan => EFloat.nan

/-- Truncation of a real toward zero, the semantics of the astype(int) cast on a
finite float value. -/
noncomputable def truncR (x : ℝ) : ℤ := if 0 ≤ x then ⌊x⌋ else ⌈x⌉

/-- One entry of RTM_raw = -100 * (ema_short - close_price) / ema_short
(src/backend/app.py line 176): finite unless the EMA entry is zero, in which case
the float division yields a signed infinity or nan according to the numerator. -/
noncomputable def rtmRawVal (e c : ℝ) : EFloat :=
  if e = 0 then
    (if 0 < -100 * (e - c) then EFloat.pinf
     else if -100 * (e - c) < 0 then EFloat.ninf
     else EFloat.nan)
  else EFloat.fin (-100 * (e - c) / e)

/-- Sample standard deviation with the pandas default ddof = 1. -/
noncomputable def sampleStd (xs : List ℝ) : ℝ :=
  Real.sqrt
    (((xs.map (fun x => (x - xs.sum / (xs.length : ℝ)) ^ 2)).sum) / ((xs.length : ℝ) - 1))

/-- Standard deviation of one rolling window with pandas semantics: nan entries are
excluded from the observation count, a window with fewer than min_periods non-nan
observations yields nan, and a window containing an infinite observation yields
nan. -/
noncomputable def stdOfWindow (minp : ℕ) (win : List EFloat) : EFloat :=
  let obs := win.filter (fun x => ! x.isNan)
  if obs.length < minp then EFloat.nan
  else if obs.any (fun x => ! x.isFinite) then EFloat.nan
  else EFloat.fin (sampleStd (obs.filterMap EFloat.toReal))

/-- pandas rolling(window = w, min_periods = minp).std(): at index i the window is
the up to w entries ending at index i. -/
noncomputable def rollingStd (w minp : ℕ) (xs : List EFloat) : List EFloat :=
  (List.range xs.length).map (fun i => stdOfWindow minp ((xs.take (i + 1)).drop (i + 1 - w)))

/-- fillna(1.0) followed by replace(0.0, 1.0) on one standard deviation value
(src/backend/app.py lines 191 to 192): nan and exact zero both become 1. -/
noncomputable def fillStd : EFloat → EFloat
  | EFloat.nan => EFloat.fin 1
  | EFloat.fin x => if x = 0 then EFloat.fin 1 else EFloat.fin x
  | x => x

/-- Shallow embedding of the RTM column computation of calculate_ema_gradient
(src/backend/app.py lines 156 to 212) as a function of the close_price and
ema_short columns.  The literal 33.33 of line 200 is the real 3333/100.  With
enough history the raw series is divided by the filled rolling standard deviation,
scaled, clipped to the band from -100 to 100, non-finite survivors are replaced by
zero and the result is cast to integers; with 11 rows or fewer the raw series takes
the same clip, replace and cast steps directly.  The gradient and angle columns
that the same source function computes afterwards are auxiliary outputs consumed by
nothing in scope (specification section 4.3) and are not modelled. -/
noncomputable def calculate_ema_gradient_rtm (closes ema : List ℝ) : List ℤ :=
  let RTM_raw := List.zipWith rtmRawVal ema closes
  let rolling_window := min 50 (closes.length - 1)
  if 10 < rolling_window then
    let rolling_std := (rollingStd rolling_window 10 RTM_raw).map fillStd
    let modified_z_score := List.zipWith EFloat.div RTM_raw rolling_std
    let scaled := modified_z_score.map (fun z => EFloat.mul z (EFloat.fin (3333 / 100)))
    ((scaled.map clipE).map whereFin).map truncR
  else
    ((RTM_raw.map clipE).map whereFin).map truncR

/-- Result structure of calculate_rtm_values_for_symbol.  The AI analysis fields it
also carries are the output of an opaque external classifier (specification section
6) and are threaded through the record builder as parameters instead. -/
structure RtmResult where
  rtm_h1_20 : List ℤ
  rtm_h1_34 : List ℤ
  rtm_d1_20 : List ℤ
  rtm_d1_34 : List ℤ

/-- One slot of the aggregator, one try block of calculate_rtm_values_for_symbol
(src/backend/app.py lines 318 to 459): a failed or empty fetch is the empty close
list; a nonempty fetch runs calculate_ema and the RTM computation and keeps the
trailing n values when at least n rows exist; every other outcome, including the
exceptions the source catches, yields the zero-filled placeholder of length n. -/
noncomputable def slotCompute (closes : List ℝ) (period : ℤ) (n : ℕ) : List ℤ :=
  match closes with
  | [] => List.replicate n 0
  | _ :: _ =>
    match calculate_ema closes period with
    | [] => List.replicate n 0
    | _ :: _ =>
      let rtm := calculate_ema_gradient_rtm closes (calculate_ema closes period)
      if n ≤ closes.length then rtm.drop (rtm.length - n) else List.replicate n 0

/-- Shallow embedding of calculate_rtm_values_for_symbol (src/backend/app.py lines
318 to 459).  The four candle fetches are independent network calls; each is
modelled by the close series it returns, the empty list standing for a failed or
empty fetch. -/
noncomputable def calculate_rtm_values_for_symbol
    (h1_closes_20 h1_closes_34 d1_closes_20 d1_closes_34 : List ℝ) : RtmResult :=
  { rtm_h1_20 := slotCompute h1_closes_20 20 6
    rtm_h1_34 := slotCompute h1_closes_34 34 6
    rtm_d1_20 := slotCompute d1_closes_20 20 20
    rtm_d1_34 := slotCompute d1_closes_34 34 20 }

end

/-- One element of the rtm_data list built by get_currencies_rtm (src/backend/app.py
lines 575 to 586).  The two wall-clock timestamp fields are not modelled. -/
structure InstrumentRecord where
  instrument : String
  rtm_h1_20 : List ℤ
  rtm_h1_34 : List ℤ
  rtm_d1_20 : List ℤ
  rtm_d1_34 : List ℤ
  daily_condition : String
  daily_reasoning : String
  error : Option String
deriving DecidableEq

/-- Record construction of get_currencies_rtm: the error field is None when all four
slot lists are truthy, meaning nonempty, and the failure string otherwise, mirroring
the conditional of src/backend/app.py line 585. -/
def buildRecord (symbol : String) (r : RtmResult) (condition reasoning : String) :
    InstrumentRecord :=
  { instrument := symbol
    rtm_h1_20 := r.rtm_h1_20
    rtm_h1_34 := r.rtm_h1_34
    rtm_d1_20 := r.rtm_d1_20
    rtm_d1_34 := r.rtm_d1_34
    daily_condition := condition
    daily_reasoning := reasoning
    error :=
      if r.rtm_h1_20 ≠ [] ∧ r.rtm_h1_34 ≠ [] ∧ r.rtm_d1_20 ≠ [] ∧ r.rtm_d1_34 ≠ []
      then none else some "Failed to fetch data" }

/-- Lexicographic strict comparison of character lists by code point, the semantics
of the Python string comparison that list.sort uses on the instrument keys. -/
def strLt : List Char → List Char → Bool
  | [], [] => false
  | [], _ :: _ => true
  | _ :: _, [] => false
  | a :: as, b :: bs => if a < b then true else if a = b then strLt as bs else false

/-- Non-strict key comparison derived from strLt; an ascending stable sort with this
relation reproduces list.sort(key = lambda x: x.instrument). -/
def keyLe (a b : InstrumentRecord) : Prop :=
  strLt b.instrument.data a.instrument.data = false

instance : DecidableRel keyLe := fun _ _ => Bool.decEq _ _

/-- Shallow embedding of the ordering step of get_currencies_rtm (src/backend/app.py
lines 588 to 589): rtm_data.sort(key = lambda x: x.instrument), a stable ascending
sort by instrument name alone. -/
def rankRecords (rs : List InstrumentRecord) : List InstrumentRecord :=
  rs.insertionSort keyLe

/- Helper lemmas about sign counting. -/

theorem posCount_map_sign (l : List ℤ) : posCount (l.map get_sign) = posCount l := by
  unfold posCount
  rw [List.countP_map]
  have h : ((fun v : ℤ => decide (0 < v)) ∘ get_sign) = (fun v : ℤ => decide (0 < v)) := by
    funext v
    by_cases h1 : 0 < v
    · simp [get_sign, h1, Function.comp]
    · by_cases h2 : v < 0 <;> simp [get_sign, h1, h2, Function.comp]
  rw [h]

theorem negCount_map_sign (l : List ℤ) : negCount (l.map get_sign) = negCount l := by
  unfold negCount
  rw [List.countP_map]
  have h : ((fun v : ℤ => decide (v < 0)) ∘ get_sign) = (fun v : ℤ => decide (v < 0)) := by
    funext v
    by_cases h1 : 0 < v
    · simp [get_sign, h1, Function.comp]
      omega
    · by_cases h2 : v < 0 <;> simp [get_sign, h1, h2, Function.comp]
  rw [h]

theorem posCount_sign_take (l : List ℤ) (n : ℕ) :
    posCount ((l.map get_sign).take n) = posCount (l.take n) := by
  rw [← List.map_take, posCount_map_sign]

theorem posCount_sign_drop (l : List ℤ) (n : ℕ) :
    posCount ((l.map get_sign).drop n) = posCount (l.drop n) := by
  rw [← List.map_drop, posCount_map_sign]

theorem negCount_sign_take (l : List ℤ) (n : ℕ) :
    negCount ((l.map get_sign).take n) = negCount (l.take n) := by
  rw [← List.map_take, negCount_map_sign]

theorem negCount_sign_drop (l : List ℤ) (n : ℕ) :
    negCount ((l.map get_sign).drop n) = negCount (l.drop n) := by
  rw [← List.map_drop, negCount_map_sign]

/-- Characterization of detect_direction_change: true exactly when the input has at
least six entries and one of the two full-tail split rules fires. -/
theorem detect_iff (vs : List ℤ) :
    detect_direction_change vs = true ↔
      6 ≤ vs.length ∧ (fullsplit42 vs = true ∨ fullsplit33 vs = true) := by
  unfold detect_direction_change fullsplit42 fullsplit33
  by_cases hl : vs.length < 6
  · have h6 : ¬ 6 ≤ vs.length := by omega
    simp [hl, h6]
  · have h6 : 6 ≤ vs.length := by omega
    rw [if_neg hl]
    simp only [posCount_sign_take, posCount_sign_drop, negCount_sign_take, negCount_sign_drop]
    split_ifs with h1 h2 h3 h4 <;>
      simp_all [Bool.and_eq_true, Bool.or_eq_true, decide_eq_true_eq]

/-- Two booleans equal as soon as their truth conditions agree. -/
theorem bool_eq_of_iff {a b : Bool} (h : a = true ↔ b = true) : a = b := by
  cases a <;> cases b <;> simp_all

/- Lemmas about the EMA smoother. -/

theorem emaRec_length {K : Type} [Field K] (a : K) (xs : List K) :
    ∀ prev : K, (emaRec a prev xs).length = xs.length := by
  induction xs with
  | nil => intro prev; rfl
  | cons x xs ih => intro prev; simp [emaRec, ih]

theorem calculate_ema_length {K : Type} [Field K] (data : List K) (period : ℤ)
    (hp : 1 ≤ period) : (calculate_ema data period).length = data.length := by
  cases data with
  | nil => rfl
  | cons c cs =>
    simp only [calculate_ema]
    rw [if_neg (by omega : ¬ period < 1)]
    simp [emaRec_length]

theorem emaRec_getD {K : Type} [Field K] (a : K) (cs : List K) :
    ∀ (prev : K) (i : ℕ), i < cs.length →
      (prev :: emaRec a prev cs).getD (i + 1) 0 =
        a * cs.getD i 0 + (1 - a) * (prev :: emaRec a prev cs).getD i 0 := by
  induction cs with
  | nil => intro prev i h; simp at h
  | cons x xs ih =>
    intro prev i h
    cases i with
    | zero => simp [emaRec]
    | succ j =>
      have hj : j < xs.length := by simpa using h
      simpa [emaRec] using ih (a * x + (1 - a) * prev) j hj

/-- C7 counterexample: with period 0 the smoother returns the empty series even for a
nonempty single-element input, because pandas ewm rejects span values below 1 and the
except branch converts the failure into an empty series; so the claimed recurrence
output does not exist for every period. -/
theorem c7_counterexample :
    calculate_ema [(1 : ℚ)] 0 = [] ∧ (calculate_ema [(1 : ℚ)] 0).head? ≠ some 1 := by
  constructor
  · rfl
  · simp [calculate_ema]

/-- C7 (amended): the smoother returns the empty series on empty input for any
period; for every period of at least 1 and nonempty input it returns the
index-aligned series with ema 0 = close 0 and the recurrence
ema i = a * close i + (1 - a) * ema (i-1), a = 2 / (period + 1); for periods below 1
it returns the empty series. -/
theorem c7_ema_recurrence :
    (∀ period : ℤ, calculate_ema ([] : List ℚ) period = []) ∧
    (∀ (c : ℚ) (cs : List ℚ) (period : ℤ), 1 ≤ period →
      (calculate_ema (c :: cs) period).head? = some c) ∧
    (∀ (data : List ℚ) (period : ℤ) (i : ℕ), 1 ≤ period → i + 1 < data.length →
      (calculate_ema data period).getD (i + 1) 0 =
        (2 / ((period : ℚ) + 1)) * data.getD (i + 1) 0 +
          (1 - 2 / ((period : ℚ) + 1)) * (calculate_ema data period).getD i 0) := by
  refine ⟨fun _ => rfl, ?_, ?_⟩
  · intro c cs period hp
    simp only [calculate_ema]
    rw [if_neg (by omega : ¬ period < 1)]
    rfl
  · intro data period i hp hi
    cases data with
    | nil => simp at hi
    | cons c cs =>
      simp only [calculate_ema]
      rw [if_neg (by omega : ¬ period < 1)]
      have hj : i < cs.length := by simpa using hi
      simpa using emaRec_getD (2 / ((period : ℚ) + 1)) cs c i hj

/-- Witness for c7_ema_recurrence at concrete inputs. -/
theorem c7_witness :
    calculate_ema ([] : List ℚ) 5 = [] ∧
    (calculate_ema ((5 : ℚ) :: [7]) 3).head? = some 5 ∧
    (calculate_ema [(1 : ℚ), 2] 3).getD (0 + 1) 0 =
      (2 / ((3 : ℚ) + 1)) * [(1 : ℚ), 2].getD (0 + 1) 0 +
        (1 - 2 / ((3 : ℚ) + 1)) * (calculate_ema [(1 : ℚ), 2] 3).getD 0 0 :=
  ⟨c7_ema_recurrence.1 5, c7_ema_recurrence.2.1 5 [7] 3 (by norm_num),
   c7_ema_recurrence.2.2 [1, 2] 3 0 (by norm_num) (by decide)⟩

/- Lemmas about the legacy RTM truncation. -/

theorem astype_int_eq_trunc (q : ℚ) : astype_int q = if 0 ≤ q then ⌊q⌋ else ⌈q⌉ := by
  by_cases h : 0 ≤ q
  · rw [if_pos h, astype_int, Rat.floor_def]
    exact Int.tdiv_eq_ediv (Rat.num_nonneg.mpr h) (by exact_mod_cast Nat.zero_le q.den)
  · rw [if_neg h, astype_int]
    have hq : (0 : ℚ) ≤ -q := by push_neg at h; linarith
    have h1 : q.num.tdiv q.den = -((-q.num).tdiv q.den) := by
      rw [Int.neg_tdiv, neg_neg]
    have hnum : (-q).num = -q.num := rfl
    have h2 : (-q.num).tdiv ((-q).den : ℤ) = ⌊-q⌋ := by
      rw [Rat.floor_def, hnum]
      exact Int.tdiv_eq_ediv (by rw [← hnum]; exact Rat.num_nonneg.mpr hq)
        (by exact_mod_cast Nat.zero_le (-q).den)
    have hden : ((-q).den : ℤ) = (q.den : ℤ) := rfl
    rw [h1, ← hden, h2, Int.floor_neg, neg_neg]

/-- C8 counterexample: at close 2 and EMA 3 the scaled deviation is -10000/3; the
implementation truncates toward zero and yields -3333 while the floor the claim
states yields -3334. -/
theorem c8_counterexample :
    legacy_rtm_column [2] [3] = some [-3333] ∧
    legacy_rtm_column_floor [2] [3] = some [-3334] := by
  have hmem : (0 : ℚ) ∉ ([3] : List ℚ) := by norm_num
  constructor
  · rw [legacy_rtm_column, if_neg hmem]
    simp only [List.zipWith, astype_int_eq_trunc]
    norm_num [Int.ceil_neg]
  · rw [legacy_rtm_column_floor, if_neg hmem]
    simp only [List.zipWith]
    norm_num

/-- C8 (amended): when every EMA entry is nonzero, each legacy RTM value is the
truncation toward zero, floor for a nonnegative quotient and ceiling for a negative
one, of -10000 * (ema i - close i) / ema i; a single zero EMA entry makes the
astype cast fail so that no RTM column is produced at all. -/
theorem c8_trunc_formula (closes ema : List ℚ) (i : ℕ)
    (hz : ∀ e ∈ ema, e ≠ 0) (hie : i < ema.length) (hic : i < closes.length) :
    ∃ vals, legacy_rtm_column closes ema = some vals ∧
      vals.getD i 0 =
        (if 0 ≤ -10000 * (ema.getD i 0 - closes.getD i 0) / ema.getD i 0 then
          ⌊-10000 * (ema.getD i 0 - closes.getD i 0) / ema.getD i 0⌋
        else ⌈-10000 * (ema.getD i 0 - closes.getD i 0) / ema.getD i 0⌉) := by
  have h0 : (0 : ℚ) ∉ ema := fun hm => hz 0 hm rfl
  refine ⟨_, by rw [legacy_rtm_column, if_neg h0], ?_⟩
  have hlen :
      i < (List.zipWith (fun e c => astype_int (-10000 * (e - c) / e)) ema closes).length := by
    rw [List.length_zipWith]; omega
  rw [List.getD_eq_getElem _ _ hlen, List.getElem_zipWith, astype_int_eq_trunc,
    List.getD_eq_getElem _ _ hie, List.getD_eq_getElem _ _ hic]

/-- Witness for c8_trunc_formula at close 2, EMA 3, index 0. -/
theorem c8_witness :
    ∃ vals, legacy_rtm_column [(2 : ℚ)] [(3 : ℚ)] = some vals ∧
      vals.getD 0 0 =
        (if 0 ≤ -10000 * ([(3 : ℚ)].getD 0 0 - [(2 : ℚ)].getD 0 0) / [(3 : ℚ)].getD 0 0 then
          ⌊-10000 * ([(3 : ℚ)].getD 0 0 - [(2 : ℚ)].getD 0 0) / [(3 : ℚ)].getD 0 0⌋
        else ⌈-10000 * ([(3 : ℚ)].getD 0 0 - [(2 : ℚ)].getD 0 0) / [(3 : ℚ)].getD 0 0⌉) :=
  c8_trunc_formula [2] [3] 0 (by norm_num) (by norm_num) (by norm_num)

/- Claims about the direction-change classifier. -/

/-- C1 counterexample: the alternating input does not return false. -/
theorem c1_counterexample : ¬ detect_direction_change [1, -1, 1, -1, 1, -1] = false := by
  decide

/-- C1 (amended): detect_direction_change on [1, -1, 1, -1, 1, -1] returns true,
because the split 3/3 rule fires: the first three values hold two positives and the
last three hold two negatives. -/
theorem c1_alternating_true :
    detect_direction_change [1, -1, 1, -1, 1, -1] = true ∧
    split33_spec [1, -1, 1, -1, 1, -1] = true := by
  decide

/-- C4 counterexample: a list of length 7 on which the implementation returns true
although neither spec-worded split rule, with second groups values[4:6] and
values[3:6], fires. -/
theorem c4_counterexample :
    detect_direction_change [1, 1, 1, 0, 0, 0, -1] = true ∧
    (split42_spec [1, 1, 1, 0, 0, 0, -1] || split33_spec [1, 1, 1, 0, 0, 0, -1]) = false := by
  decide

/-- C4 (amended): for inputs of exactly six values the classifier returns true
exactly when the spec-worded split 4/2 or split 3/3 rule fires, and for inputs of
fewer than six values it returns false; for longer inputs the second group of each
split extends to the end of the list instead. -/
theorem c4_six_value_iff :
    (∀ vs : List ℤ, vs.length = 6 →
      (detect_direction_change vs = true ↔
        (split42_spec vs = true ∨ split33_spec vs = true))) ∧
    (∀ vs : List ℤ, vs.length < 6 → detect_direction_change vs = false) := by
  constructor
  · intro vs h6
    rw [detect_iff]
    have hd4 : (vs.drop 4).take 2 = vs.drop 4 :=
      List.take_of_length_le (by simp [h6])
    have hd3 : (vs.drop 3).take 3 = vs.drop 3 :=
      List.take_of_length_le (by simp [h6])
    unfold fullsplit42 fullsplit33 split42_spec split33_spec
    rw [hd4, hd3]
    constructor
    · rintro ⟨-, h⟩; exact h
    · intro h; exact ⟨by omega, h⟩
  · intro vs hl
    unfold detect_direction_change
    rw [if_pos hl]

/-- Witness for c4_six_value_iff at concrete inputs. -/
theorem c4_witness :
    (detect_direction_change [10, 10, 10, 10, -5, -5] = true ↔
      (split42_spec [10, 10, 10, 10, -5, -5] = true ∨
        split33_spec [10, 10, 10, 10, -5, -5] = true)) ∧
    detect_direction_change [1, -1] = false :=
  ⟨c4_six_value_iff.1 [10, 10, 10, 10, -5, -5] (by decide),
   c4_six_value_iff.2 [1, -1] (by decide)⟩

/-- C9 (confirmed): for inputs longer than six values the classifier evaluates its
two split rules over the whole list, first groups at the fixed indices 4 and 3 and
second groups extending to the end with unchanged thresholds, and there is a list of
length 7 whose result differs from the result on its trailing six values. -/
theorem c9_full_groups :
    (∀ vs : List ℤ, 6 < vs.length →
      (detect_direction_change vs = true ↔
        (fullsplit42 vs = true ∨ fullsplit33 vs = true))) ∧
    (∃ l : List ℤ, l.length = 7 ∧
      detect_direction_change l ≠ detect_direction_change (l.drop 1)) := by
  constructor
  · intro vs h
    rw [detect_iff]
    constructor
    · rintro ⟨-, hh⟩; exact hh
    · intro hh; exact ⟨by omega, hh⟩
  · exact ⟨[1, 1, 1, 0, 0, 0, -1], by decide, by decide⟩

/-- Witness for c9_full_groups at a concrete input of length 7. -/
theorem c9_witness :
    detect_direction_change [1, 1, 1, 0, 0, 0, -1] = true ↔
      (fullsplit42 [1, 1, 1, 0, 0, 0, -1] = true ∨
        fullsplit33 [1, 1, 1, 0, 0, 0, -1] = true) :=
  c9_full_groups.1 [1, 1, 1, 0, 0, 0, -1] (by decide)

/- Invariance lemmas for C10. -/

theorem posCount_map_mul (k : ℤ) (hk : 0 < k) (l : List ℤ) :
    posCount (l.map (fun x => k * x)) = posCount l := by
  unfold posCount
  rw [List.countP_map]
  have h : ((fun v : ℤ => decide (0 < v)) ∘ (fun x : ℤ => k * x)) =
      (fun v : ℤ => decide (0 < v)) := by
    funext v
    have hiff : (0 < k * v) ↔ (0 < v) := by
      constructor
      · intro hmul
        by_contra hv
        push_neg at hv
        nlinarith
      · intro hv
        exact mul_pos hk hv
    simp [Function.comp, decide_eq_decide, hiff]
  rw [h]

theorem negCount_map_mul (k : ℤ) (hk : 0 < k) (l : List ℤ) :
    negCount (l.map (fun x => k * x)) = negCount l := by
  unfold negCount
  rw [List.countP_map]
  have h : ((fun v : ℤ => decide (v < 0)) ∘ (fun x : ℤ => k * x)) =
      (fun v : ℤ => decide (v < 0)) := by
    funext v
    have hiff : (k * v < 0) ↔ (v < 0) := by
      constructor
      · intro hmul
        by_contra hv
        push_neg at hv
        nlinarith
      · intro hv
        exact mul_neg_of_pos_of_neg hk hv
    simp [Function.comp, decide_eq_decide, hiff]
  rw [h]

theorem fullsplit42_map_sign (l : List ℤ) : fullsplit42 (l.map get_sign) = fullsplit42 l := by
  unfold fullsplit42
  rw [posCount_sign_take, posCount_sign_drop, negCount_sign_take, negCount_sign_drop]

theorem fullsplit33_map_sign (l : List ℤ) : fullsplit33 (l.map get_sign) = fullsplit33 l := by
  unfold fullsplit33
  rw [posCount_sign_take, posCount_sign_drop, negCount_sign_take, negCount_sign_drop]

theorem fullsplit42_map_mul (k : ℤ) (hk : 0 < k) (l : List ℤ) :
    fullsplit42 (l.map (fun x => k * x)) = fullsplit42 l := by
  unfold fullsplit42
  simp only [← List.map_take, ← List.map_drop, posCount_map_mul k hk, negCount_map_mul k hk]

theorem fullsplit33_map_mul (k : ℤ) (hk : 0 < k) (l : List ℤ) :
    fullsplit33 (l.map (fun x => k * x)) = fullsplit33 l := by
  unfold fullsplit33
  simp only [← List.map_take, ← List.map_drop, posCount_map_mul k hk, negCount_map_mul k hk]

/-- C10 (confirmed): the classifier depends only on the sign sequence of its input;
it is unchanged by replacing each value by its sign and by scaling all values by any
positive constant. -/
theorem c10_sign_invariance (vs : List ℤ) (k : ℤ) (hk : 0 < k) :
    detect_direction_change (vs.map get_sign) = detect_direction_change vs ∧
    detect_direction_change (vs.map (fun x => k * x)) = detect_direction_change vs := by
  constructor
  · apply bool_eq_of_iff
    rw [detect_iff, detect_iff, List.length_map, fullsplit42_map_sign, fullsplit33_map_sign]
  · apply bool_eq_of_iff
    rw [detect_iff, detect_iff, List.length_map, fullsplit42_map_mul k hk,
      fullsplit33_map_mul k hk]

/-- Witness for c10_sign_invariance at a concrete input and factor. -/
theorem c10_witness :
    detect_direction_change ([10, 10, 10, 10, -5, -5].map get_sign) =
        detect_direction_change [10, 10, 10, 10, -5, -5] ∧
    detect_direction_change ([10, 10, 10, 10, -5, -5].map (fun x => 2 * x)) =
        detect_direction_change [10, 10, 10, 10, -5, -5] :=
  c10_sign_invariance [10, 10, 10, 10, -5, -5] 2 (by decide)

/- Bound lemmas for the normalized RTM pipeline. -/

theorem whereFin_clipE_bound (x : EFloat) :
    -100 ≤ whereFin (clipE x) ∧ whereFin (clipE x) ≤ (100 : ℝ) := by
  cases x with
  | fin v =>
    simp only [clipE, whereFin]
    exact ⟨le_min (by norm_num) (le_max_left _ _), min_le_left _ _⟩
  | pinf => norm_num [whereFin, clipE]
  | ninf => norm_num [whereFin, clipE]
  | nan => norm_num [whereFin, clipE]

theorem truncR_bound (x : ℝ) (h1 : -100 ≤ x) (h2 : x ≤ 100) :
    -100 ≤ truncR x ∧ truncR x ≤ 100 := by
  unfold truncR
  split_ifs with h0
  · constructor
    · have hf : (0 : ℤ) ≤ ⌊x⌋ := Int.floor_nonneg.mpr h0
      omega
    · have hf : ⌊x⌋ ≤ ⌊((100 : ℤ) : ℝ)⌋ := Int.floor_le_floor (by exact_mod_cast h2)
      rwa [Int.floor_intCast] at hf
  · constructor
    · have hc : ⌈((-100 : ℤ) : ℝ)⌉ ≤ ⌈x⌉ := Int.ceil_le_ceil (by exact_mod_cast h1)
      rwa [Int.ceil_intCast] at hc
    · have hc : ⌈x⌉ ≤ ⌈((100 : ℤ) : ℝ)⌉ := Int.ceil_le_ceil (by exact_mod_cast h2)
      rwa [Int.ceil_intCast] at hc

theorem finalize_getD_bound (L : List EFloat) (i : ℕ) :
    -100 ≤ (((L.map clipE).map whereFin).map truncR).getD i 0 ∧
      (((L.map clipE).map whereFin).map truncR).getD i 0 ≤ 100 := by
  induction L generalizing i with
  | nil => simp
  | cons x xs ih =>
    cases i with
    | zero =>
      simp only [List.map_cons, List.getD_cons_zero]
      obtain ⟨h1, h2⟩ := whereFin_clipE_bound x
      exact truncR_bound _ h1 h2
    | succ j =>
      simpa only [List.map_cons, List.getD_cons_succ] using ih j

/-- C3 (confirmed): every value of the normalized RTM series is an integer between
-100 and 100 for any input close and EMA series, in both the rolling branch and the
fallback branch, and the where step of the pipeline maps every non-finite value that
reaches it to zero before the cast to integer. -/
theorem c3_normalized_bound :
    (∀ (closes ema : List ℝ) (i : ℕ),
      -100 ≤ (calculate_ema_gradient_rtm closes ema).getD i 0 ∧
        (calculate_ema_gradient_rtm closes ema).getD i 0 ≤ 100) ∧
    whereFin EFloat.nan = 0 ∧ whereFin EFloat.pinf = 0 ∧ whereFin EFloat.ninf = 0 := by
  refine ⟨?_, rfl, rfl, rfl⟩
  intro closes ema i
  simp only [calculate_ema_gradient_rtm]
  by_cases hw : 10 < min 50 (closes.length - 1)
  · rw [if_pos hw]
    exact finalize_getD_bound _ i
  · rw [if_neg hw]
    exact finalize_getD_bound _ i

/- Length lemmas for the aggregator. -/

theorem rollingStd_length (w minp : ℕ) (xs : List EFloat) :
    (rollingStd w minp xs).length = xs.length := by
  simp [rollingStd]

theorem calculate_ema_gradient_rtm_length (closes ema : List ℝ) :
    (calculate_ema_gradient_rtm closes ema).length = min ema.length closes.length := by
  simp only [calculate_ema_gradient_rtm]
  by_cases hw : 10 < min 50 (closes.length - 1)
  · rw [if_pos hw]
    simp [List.length_zipWith, rollingStd_length]
  · rw [if_neg hw]
    simp [List.length_zipWith]

theorem slotCompute_length (closes : List ℝ) (period : ℤ) (n : ℕ) :
    (slotCompute closes period n).length = n := by
  cases closes with
  | nil => simp [slotCompute]
  | cons c cs =>
    rcases hE : calculate_ema (c :: cs) period with _ | ⟨e, es⟩
    · simp [slotCompute, hE]
    · have hp : ¬ period < 1 := by
        intro hp
        simp [calculate_ema, if_pos hp] at hE
      have hlen : (calculate_ema (c :: cs) period).length = (c :: cs).length :=
        calculate_ema_length _ _ (by omega)
      have hlen2 : (e :: es).length = (c :: cs).length := by rw [← hE]; exact hlen
      simp only [slotCompute, hE]
      by_cases hn : n ≤ (c :: cs).length
      · rw [if_pos hn, List.length_drop, calculate_ema_gradient_rtm_length]
        have hmin : min (e :: es).length (c :: cs).length = (c :: cs).length := by
          rw [hlen2]; exact min_self _
        omega
      · rw [if_neg hn]
        simp

/-- C6 (confirmed): the aggregator record always carries the four oscillator slots
at lengths 6, 6, 20 and 20; each slot is a function of its own fetch alone, so a
failure in one slot never changes another and never aborts the record; a failed
fetch and an insufficient fetch both yield the zero-filled placeholder for that
slot. -/
theorem c6_slot_shape :
    (∀ f1 f2 f3 f4 : List ℝ,
      (calculate_rtm_values_for_symbol f1 f2 f3 f4).rtm_h1_20.length = 6 ∧
      (calculate_rtm_values_for_symbol f1 f2 f3 f4).rtm_h1_34.length = 6 ∧
      (calculate_rtm_values_for_symbol f1 f2 f3 f4).rtm_d1_20.length = 20 ∧
      (calculate_rtm_values_for_symbol f1 f2 f3 f4).rtm_d1_34.length = 20) ∧
    (∀ f1 f2 f3 f4 g1 g2 g3 g4 : List ℝ,
      (calculate_rtm_values_for_symbol f1 f2 f3 f4).rtm_h1_20 =
        (calculate_rtm_values_for_symbol f1 g2 g3 g4).rtm_h1_20 ∧
      (calculate_rtm_values_for_symbol f1 f2 f3 f4).rtm_h1_34 =
        (calculate_rtm_values_for_symbol g1 f2 g3 g4).rtm_h1_34 ∧
      (calculate_rtm_values_for_symbol f1 f2 f3 f4).rtm_d1_20 =
        (calculate_rtm_values_for_symbol g1 g2 f3 g4).rtm_d1_20 ∧
      (calculate_rtm_values_for_symbol f1 f2 f3 f4).rtm_d1_34 =
        (calculate_rtm_values_for_symbol g1 g2 g3 f4).rtm_d1_34) ∧
    (∀ f2 f3 f4 : List ℝ,
      (calculate_rtm_values_for_symbol [] f2 f3 f4).rtm_h1_20 = List.replicate 6 0) ∧
    (∀ f1 f3 f4 : List ℝ,
      (calculate_rtm_values_for_symbol f1 [] f3 f4).rtm_h1_34 = List.replicate 6 0) ∧
    (∀ f1 f2 f4 : List ℝ,
      (calculate_rtm_values_for_symbol f1 f2 [] f4).rtm_d1_20 = List.replicate 20 0) ∧
    (∀ f1 f2 f3 : List ℝ,
      (calculate_rtm_values_for_symbol f1 f2 f3 []).rtm_d1_34 = List.replicate 20 0) ∧
    (∀ f2 f3 f4 : List ℝ,
      (calculate_rtm_values_for_symbol [(1 : ℝ)] f2 f3 f4).rtm_h1_20 =
        List.replicate 6 0) := by
  refine ⟨?_, ?_, ?_, ?_, ?_, ?_, ?_⟩
  · intro f1 f2 f3 f4
    exact ⟨slotCompute_length f1 20 6, slotCompute_length f2 34 6,
      slotCompute_length f3 20 20, slotCompute_length f4 34 20⟩
  · intro f1 f2 f3 f4 g1 g2 g3 g4
    exact ⟨rfl, rfl, rfl, rfl⟩
  · intro f2 f3 f4; rfl
  · intro f1 f3 f4; rfl
  · intro f1 f2 f4; rfl
  · intro f1 f2 f3; rfl
  · intro f2 f3 f4
    show slotCompute [(1 : ℝ)] 20 6 = List.replicate 6 0
    have hE : calculate_ema [(1 : ℝ)] 20 = [1] := by
      simp only [calculate_ema]
      rw [if_neg (by norm_num : ¬ (20 : ℤ) < 1)]
      rfl
    simp only [slotCompute, hE]
    norm_num

/-- C5 (code bug): the error field is always None.  The conditional of
src/backend/app.py line 585 tests the truthiness of the four slot lists, but the
aggregator always fills every slot with a nonempty list, zero-filled on failure, so
the test can never fail: even when every fetch fails and every slot is the
zero-filled placeholder, the record reports error = None. -/
theorem c5_error_always_none :
    (∀ (f1 f2 f3 f4 : List ℝ) (sym cond reas : String),
      (buildRecord sym (calculate_rtm_values_for_symbol f1 f2 f3 f4) cond reas).error =
        none) ∧
    ((calculate_rtm_values_for_symbol [] [] [] []).rtm_h1_20 = List.replicate 6 0 ∧
      (calculate_rtm_values_for_symbol [] [] [] []).rtm_h1_34 = List.replicate 6 0 ∧
      (calculate_rtm_values_for_symbol [] [] [] []).rtm_d1_20 = List.replicate 20 0 ∧
      (calculate_rtm_values_for_symbol [] [] [] []).rtm_d1_34 = List.replicate 20 0) ∧
    (buildRecord "EURUSD" (calculate_rtm_values_for_symbol [] [] [] [])
        "Analysis Unavailable" "AI provider not configured").error = none := by
  have hne : ∀ (closes : List ℝ) (p : ℤ) (n : ℕ), 0 < n → slotCompute closes p n ≠ [] := by
    intro closes p n hn h
    have hl := slotCompute_length closes p n
    rw [h] at hl
    simp at hl
    omega
  have herr : ∀ (f1 f2 f3 f4 : List ℝ) (sym cond reas : String),
      (buildRecord sym (calculate_rtm_values_for_symbol f1 f2 f3 f4) cond reas).error =
        none := by
    intro f1 f2 f3 f4 sym cond reas
    simp only [buildRecord]
    rw [if_pos]
    exact ⟨hne _ _ _ (by norm_num), hne _ _ _ (by norm_num),
      hne _ _ _ (by norm_num), hne _ _ _ (by norm_num)⟩
  exact ⟨herr, ⟨rfl, rfl, rfl, rfl⟩, herr [] [] [] [] _ _ _⟩

/- Order lemmas for the lexicographic key comparison. -/

theorem strLt_irrefl (a : List Char) : strLt a a = false := by
  induction a with
  | nil => rfl
  | cons x xs ih => simp [strLt, ih]

theorem strLt_asymm (a : List Char) :
    ∀ b : List Char, strLt a b = true → strLt b a = false := by
  induction a with
  | nil =>
    intro b h
    cases b with
    | nil => simp [strLt] at h
    | cons y ys => simp [strLt]
  | cons x xs ih =>
    intro b h
    cases b with
    | nil => simp [strLt] at h
    | cons y ys =>
      rcases lt_trichotomy x y with hxy | hxy | hxy
      · have h1 : ¬ y < x := lt_asymm hxy
        have h2 : y ≠ x := ne_of_gt hxy
        simp [strLt, h1, h2]
      · subst hxy
        simp only [strLt, lt_irrefl, if_false, if_pos rfl] at h ⊢
        exact ih ys h
      · have h1 : ¬ x < y := lt_asymm hxy
        have h2 : x ≠ y := ne_of_gt hxy
        simp [strLt, h1, h2] at h
  
theorem strLt_trans (a : List Char) :
    ∀ b c : List Char, strLt a b = true → strLt b c = true → strLt a c = true := by
  induction a with
  | nil =>
    intro b c hab hbc
    cases b with
    | nil => simp [strLt] at hab
    | cons y ys =>
      cases c with
      | nil => simp [strLt] at hbc
      | cons z zs => simp [strLt]
  | cons x xs ih =>
    intro b c hab hbc
    cases b with
    | nil => simp [strLt] at hab
    | cons y ys =>
      cases c with
      | nil => simp [strLt] at hbc
      | cons z zs =>
        rcases lt_trichotomy x y with hxy | hxy | hxy
        · rcases lt_trichotomy y z with hyz | hyz | hyz
          · simp [strLt, lt_trans hxy hyz]
          · subst hyz
            simp [strLt, hxy]
          · simp [strLt, lt_asymm hyz, ne_of_gt hyz] at hbc
        · subst hxy
          simp only [strLt, lt_irrefl, if_false, if_pos rfl] at hab hbc ⊢
          rcases lt_trichotomy x z with hxz | hxz | hxz
          · simp [hxz]
          · subst hxz
            simp only [lt_irrefl, if_false, if_pos rfl] at hbc ⊢
            exact ih ys zs hab hbc
          · simp [lt_asymm hxz, ne_of_gt hxz] at hbc
        · simp [strLt, lt_asymm hxy, ne_of_gt hxy] at hab

theorem strLt_total (a : List Char) :
    ∀ b : List Char, strLt a b = true ∨ strLt b a = true ∨ a = b := by
  induction a with
  | nil =>
    intro b
    cases b with
    | nil => right; right; rfl
    | cons y ys => left; simp [strLt]
  | cons x xs ih =>
    intro b
    cases b with
    | nil => right; left; simp [strLt]
    | cons y ys =>
      rcases lt_trichotomy x y with hxy | hxy | hxy
      · left; simp [strLt, hxy]
      · subst hxy
        rcases ih ys with h | h | h
        · left; simp [strLt, h]
        · right; left; simp [strLt, h]
        · right; right; rw [h]
      · right; left; simp [strLt, hxy]

/-- C2 counterexample: with no bias in play, the endpoint orders purely
alphabetically, so the non-reversing instrument AUDUSD is placed ahead of the
reversing instrument GBPUSD, against the claimed change-group-first partition. -/
theorem c2_counterexample :
    rankRecords
        [{ instrument := "GBPUSD", rtm_h1_20 := [10, 10, 10, 10, -5, -5],
           rtm_h1_34 := [0, 0, 0, 0, 0, 0], rtm_d1_20 := List.replicate 20 0,
           rtm_d1_34 := List.replicate 20 0, daily_condition := "Ranging",
           daily_reasoning := "r", error := none },
         { instrument := "AUDUSD", rtm_h1_20 := [1, 1, 1, 1, 1, 1],
           rtm_h1_34 := [0, 0, 0, 0, 0, 0], rtm_d1_20 := List.replicate 20 0,
           rtm_d1_34 := List.replicate 20 0, daily_condition := "Ranging",
           daily_reasoning := "r", error := none }] =
      [{ instrument := "AUDUSD", rtm_h1_20 := [1, 1, 1, 1, 1, 1],
         rtm_h1_34 := [0, 0, 0, 0, 0, 0], rtm_d1_20 := List.replicate 20 0,
         rtm_d1_34 := List.replicate 20 0, daily_condition := "Ranging",
         daily_reasoning := "r", error := none },
       { instrument := "GBPUSD", rtm_h1_20 := [10, 10, 10, 10, -5, -5],
         rtm_h1_34 := [0, 0, 0, 0, 0, 0], rtm_d1_20 := List.replicate 20 0,
         rtm_d1_34 := List.replicate 20 0, daily_condition := "Ranging",
         daily_reasoning := "r", error := none }] ∧
    detect_direction_change [10, 10, 10, 10, -5, -5] = true ∧
    detect_direction_change [1, 1, 1, 1, 1, 1] = false := by
  decide

/-- C2 (amended): with no bias information the endpoint orders the records by
instrument name ascending alone: the result of rankRecords is a permutation of the
input sorted by the instrument key, and direction-change status plays no part in the
order. -/
theorem c2_alphabetical_only (rs : List InstrumentRecord) :
    List.Sorted keyLe (rankRecords rs) ∧ List.Perm (rankRecords rs) rs := by
  haveI ht : IsTotal InstrumentRecord keyLe := by
    constructor
    intro a b
    unfold keyLe
    rcases strLt_total b.instrument.data a.instrument.data with h | h | h
    · right
      exact strLt_asymm _ _ h
    · left
      exact strLt_asymm _ _ h
    · left
      rw [h]
      exact strLt_irrefl _
  haveI htr : IsTrans InstrumentRecord keyLe := by
    constructor
    intro a b c hab hbc
    unfold keyLe at hab hbc ⊢
    rcases Bool.eq_false_or_eq_true (strLt c.instrument.data a.instrument.data) with hx | hx
    swap
    · exact hx
    · exfalso
      rcases strLt_total b.instrument.data c.instrument.data with h | h | h
      · have hba := strLt_trans _ _ _ h hx
        rw [hab] at hba
        exact Bool.noConfusion hba
      · rw [hbc] at h
        exact Bool.noConfusion h
      · rw [← h] at hx
        rw [hab] at hx
        exact Bool.noConfusion hx
  exact ⟨List.sorted_insertionSort keyLe rs, List.perm_insertionSort keyLe rs⟩
